import Mathlib

/-!
Shallow embedding of the depth-reconciliation engine of `binance_md`
(`src/order_book.rs`, `src/event_buffer.rs`, `src/recovery.rs`).

Modelling conventions:
* `u64` sequence numbers become `ℕ`.  On every path of `apply_update` where
  the source computes `last_applied_id + 1` or `first_trade_id - last_applied_id`
  the surrounding branch conditions rule out wrap-around, so `ℕ` arithmetic
  agrees with `u64` there.
* Prices and quantities travel as decimal strings and are parsed with
  `str::parse::<f64>().unwrap()`.  We model the parsed value as `ℚ` and the
  parser as `parseDecimal : String → Option ℚ` (sign, integer digits,
  optional fraction — the shapes the wire carries).  A failed parse makes
  the Rust code panic via `unwrap`; we model a panic as `Option.none`
  propagating out of the operation.
* `BTreeMap<OrderedFloat<f64>, f64>` becomes an association list
  `List (ℚ × ℚ)` with key-replacing `insert` and key-dropping `erase`.
* The `BinaryHeap<PrioritizedOrderBookUpdate>` (a min-heap on
  `first_trade_id`, by the reversed `Ord`) is refined by a list kept sorted
  ascending by `first_trade_id`: `peek` is the head, `pop` drops the head,
  `push` is ordered insertion.
-/

deriving instance DecidableEq for Except

namespace BinanceMd

/-- One decimal digit of a price/qty string. -/
def decDigit? (c : Char) : Option ℕ :=
  if c.isDigit then some (c.toNat - 48) else none

/-- Reads a digit run as a natural number; fails on any non-digit. -/
def natOfDigits (cs : List Char) : Option ℕ :=
  cs.foldl (fun acc c => acc.bind (fun a => (decDigit? c).map (fun d => a * 10 + d))) (some 0)

/-- Unsigned decimal literal: digits, optionally a point and more digits,
with at least one digit present. -/
def parseUnsigned (cs : List Char) : Option ℚ :=
  let ip := cs.takeWhile (fun c => c != '.')
  match cs.dropWhile (fun c => c != '.') with
  | [] =>
    if ip.isEmpty then none
    else (natOfDigits ip).map (fun n => (n : ℚ))
  | _ :: fp =>
    if ip.isEmpty && fp.isEmpty then none
    else
      (natOfDigits ip).bind (fun n =>
        (natOfDigits fp).map (fun f =>
          (n : ℚ) + (f : ℚ) / (10 : ℚ) ^ fp.length))

/-- Model of `str::parse::<f64>` on the decimal strings the wire carries
(optional sign, digits, optional fractional part); the parsed value is
represented exactly as a rational. -/
def parseDecimal (s : String) : Option ℚ :=
  match s.toList with
  | [] => none
  | c :: cs =>
    if c = '-' then (parseUnsigned cs).map (fun q => -q)
    else if c = '+' then parseUnsigned cs
    else parseUnsigned (c :: cs)

/-- One side of the book: price → qty finite map, as an association list
(model of `BTreeMap<OrderedFloat<f64>, f64>`). -/
abbrev PriceMap := List (ℚ × ℚ)

/-- `BTreeMap::insert`: replace the value at an existing key, else add the
binding. -/
def PriceMap.insert : PriceMap → ℚ → ℚ → PriceMap
  | [], p, q => [(p, q)]
  | e :: rest, p, q =>
    if e.1 = p then (p, q) :: rest
    else e :: PriceMap.insert rest p q

/-- `BTreeMap::remove`: drop the binding at the key, if any. -/
def PriceMap.erase (m : PriceMap) (p : ℚ) : PriceMap :=
  m.filter (fun e => decide (e.1 ≠ p))

/-- `messages::OrderBookUpdate`, restricted to the fields the book logic
reads (`first_trade_id`, `last_trade_id`, `bids`, `asks`). -/
structure OrderBookUpdate where
  first_trade_id : ℕ
  last_trade_id : ℕ
  bids : List (String × String)
  asks : List (String × String)
deriving DecidableEq

/-- `messages::Snapshot`. -/
structure Snapshot where
  last_update_id : ℕ
  bids : List (String × String)
  asks : List (String × String)
deriving DecidableEq

/-- `order_book::OrderBook`. -/
structure OrderBook where
  bids : PriceMap
  asks : PriceMap
  last_applied_id : ℕ
deriving DecidableEq

/-- `OrderBook::new`. -/
def OrderBook.new : OrderBook :=
  { bids := [], asks := [], last_applied_id := 0 }

/-- The per-side loop of `OrderBook::apply_update` (order_book.rs:94-112):
parse price and qty (panic → `none`), remove the level when qty zero,
otherwise upsert it. -/
def applySide : PriceMap → List (String × String) → Option PriceMap
  | side, [] => some side
  | side, e :: rest =>
    match parseDecimal e.1 with
    | none => none
    | some p =>
      match parseDecimal e.2 with
      | none => none
      | some q =>
        applySide (if q = 0 then side.erase p else PriceMap.insert side p q) rest

/-- The per-side loop of `OrderBook::apply_snapshot` (order_book.rs:57-66):
parse price and qty (panic → `none`) and insert unconditionally — there is
no zero-qty filter in the source. -/
def snapshotSide : PriceMap → List (String × String) → Option PriceMap
  | side, [] => some side
  | side, e :: rest =>
    match parseDecimal e.1 with
    | none => none
    | some p =>
      match parseDecimal e.2 with
      | none => none
      | some q =>
        snapshotSide (PriceMap.insert side p q) rest

/-- `OrderBook::apply_snapshot` (order_book.rs:51-70): set
`last_applied_id := snapshot.last_update_id` (unconditionally), clear both
sides, insert every snapshot line.  `none` models a parse panic. -/
def OrderBook.apply_snapshot (_b : OrderBook) (s : Snapshot) : Option OrderBook :=
  match snapshotSide [] s.bids with
  | none => none
  | some nb =>
    match snapshotSide [] s.asks with
    | none => none
    | some na =>
      some { bids := nb, asks := na, last_applied_id := s.last_update_id }

/-- `OrderBook::apply_update` (order_book.rs:80-120).  The returned pair is
(result, book after the call); the `Err` payload is the figure printed in
the gap message, `first_trade_id - last_applied_id`.  `none` models a parse
panic. -/
def OrderBook.apply_update (b : OrderBook) (u : OrderBookUpdate) :
    Option (Except ℕ Unit × OrderBook) :=
  if u.last_trade_id ≤ b.last_applied_id then
    some (Except.ok (), b)
  else if b.last_applied_id + 1 < u.first_trade_id then
    some (Except.error (u.first_trade_id - b.last_applied_id), b)
  else
    match applySide b.bids u.bids with
    | none => none
    | some nb =>
      match applySide b.asks u.asks with
      | none => none
      | some na =>
        some (Except.ok (), { bids := nb, asks := na, last_applied_id := u.last_trade_id })

/-- `order_book::InstrumentState`. -/
inductive InstrumentState where
  | Normal
  | Recovering
  | JustRecovered
  | JustStarted
deriving DecidableEq

/-- Heap order of `PrioritizedOrderBookUpdate` (event_buffer.rs:15-20): the
reversed `Ord` on `first_trade_id` makes `BinaryHeap` a min-heap keyed on
`first_trade_id`. -/
def byFirst (u v : OrderBookUpdate) : Prop :=
  u.first_trade_id ≤ v.first_trade_id

instance : DecidableRel byFirst := fun u v =>
  inferInstanceAs (Decidable (u.first_trade_id ≤ v.first_trade_id))

/-- `BinaryHeap::push` refined on the sorted-list model of the heap:
ordered insertion keyed on `first_trade_id`. -/
def bufferPush (u : OrderBookUpdate) : List OrderBookUpdate → List OrderBookUpdate
  | [] => [u]
  | v :: rest =>
    if u.first_trade_id ≤ v.first_trade_id then u :: v :: rest
    else v :: bufferPush u rest

/-- The loop of `EventBuffer::process_buffered_updates`
(event_buffer.rs:61-146) on the sorted-list model of the heap, as a
function of the shared state it reads and writes: instrument state, book
and buffer.  The extra list accumulates the updates whose
`apply_update` returned `Ok` (each such apply also resets the watchdog).
Result `none` models a parse panic inside `apply_update`.

Branches, in source order: empty buffer stops the loop; in
`JustRecovered` an update with `first_trade_id ≤ cursor+1 ≤ last_trade_id`
is popped and applied and the state becomes `Normal`, a future update
stops the loop, an outdated one is popped and discarded; in every other
state an update with `first_trade_id = cursor+1` is popped and applied, a
future one stops, an outdated one is popped and discarded. -/
def drainGo : InstrumentState → OrderBook → List OrderBookUpdate → List OrderBookUpdate →
    Option (InstrumentState × OrderBook × List OrderBookUpdate × List OrderBookUpdate)
  | st, bk, [], acc => some (st, bk, [], acc)
  | st, bk, u :: rest, acc =>
    if st = InstrumentState.JustRecovered then
      if u.first_trade_id ≤ bk.last_applied_id + 1 ∧ bk.last_applied_id + 1 ≤ u.last_trade_id then
        match bk.apply_update u with
        | none => none
        | some (Except.ok _, bk') => drainGo InstrumentState.Normal bk' rest (acc ++ [u])
        | some (Except.error _, bk') => drainGo InstrumentState.Normal bk' rest acc
      else if bk.last_applied_id + 1 < u.first_trade_id then
        some (st, bk, u :: rest, acc)
      else
        drainGo st bk rest acc
    else
      if u.first_trade_id = bk.last_applied_id + 1 then
        match bk.apply_update u with
        | none => none
        | some (Except.ok _, bk') => drainGo st bk' rest (acc ++ [u])
        | some (Except.error _, bk') => drainGo st bk' rest acc
      else if bk.last_applied_id + 1 < u.first_trade_id then
        some (st, bk, u :: rest, acc)
      else
        drainGo st bk rest acc

/-- `EventBuffer::process_buffered_updates` entered with an empty applied
accumulator. -/
def process_buffered_updates (st : InstrumentState) (bk : OrderBook)
    (buf : List OrderBookUpdate) :
    Option (InstrumentState × OrderBook × List OrderBookUpdate × List OrderBookUpdate) :=
  drainGo st bk buf []

/-- `EventBuffer::buffer_and_process_update` (event_buffer.rs:48-59):
push the update, then drain. -/
def buffer_and_process_update (u : OrderBookUpdate) (st : InstrumentState)
    (bk : OrderBook) (buf : List OrderBookUpdate) :
    Option (InstrumentState × OrderBook × List OrderBookUpdate × List OrderBookUpdate) :=
  process_buffered_updates st bk (bufferPush u buf)

/-- `recovery::recover_order_book` (recovery.rs:78-129) as a function of
the fetch outcome and the shared state.  The initial instrument state `s0`
only feeds a debug line in the source; the controller overwrites it with
`Recovering` at entry.  On fetch success: `apply_snapshot_locked` applies
the snapshot and sets the state to `JustRecovered`, the buffer is drained,
and then (recovery.rs:115-119) the state is unconditionally set to
`JustRecovered` again — even when the drain just applied an update and
moved it to `Normal`.  On fetch failure the state is reset to `Normal` and
book and buffer are untouched.  The last component is the list of updates
the drain applied; `none` models a parse panic. -/
def recover_order_book (fetched : Except String Snapshot) (s0 : InstrumentState)
    (bk : OrderBook) (buf : List OrderBookUpdate) :
    Option (InstrumentState × OrderBook × List OrderBookUpdate × List OrderBookUpdate) :=
  match fetched, s0 with
  | Except.error _, _ => some (InstrumentState.Normal, bk, buf, [])
  | Except.ok snap, _ =>
    match bk.apply_snapshot snap with
    | none => none
    | some bk1 =>
      match drainGo InstrumentState.JustRecovered bk1 buf [] with
      | none => none
      | some (_, bk2, buf2, applied) =>
        some (InstrumentState.JustRecovered, bk2, buf2, applied)

/-- A finite sequence of `apply_update` calls on one book: the caller keeps
the book both on `Ok` and on `Err` (gap) results; a panic stops the run. -/
def runUpdates : OrderBook → List OrderBookUpdate → Option OrderBook
  | b, [] => some b
  | b, u :: rest =>
    match b.apply_update u with
    | none => none
    | some (_, b') => runUpdates b' rest

/-- Every quantity stored in the book is strictly positive. -/
def OrderBook.qtysPositive (b : OrderBook) : Prop :=
  (∀ e ∈ b.bids, 0 < e.2) ∧ (∀ e ∈ b.asks, 0 < e.2)

instance (b : OrderBook) : Decidable b.qtysPositive :=
  inferInstanceAs (Decidable (_ ∧ _))

/-- Every price and qty string of a level list parses. -/
def parsesAll (l : List (String × String)) : Prop :=
  ∀ e ∈ l, (parseDecimal e.1).isSome ∧ (parseDecimal e.2).isSome

instance (l : List (String × String)) : Decidable (parsesAll l) :=
  inferInstanceAs (Decidable (∀ e ∈ l, _ ∧ _))

/-- The qty string of one level parses only to a non-negative value. -/
def qtyOk (e : String × String) : Prop :=
  ∀ q : ℚ, parseDecimal e.2 = some q → 0 ≤ q

instance (e : String × String) : Decidable (qtyOk e) :=
  match hp : parseDecimal e.2 with
  | none => isTrue (fun _ hq => by rw [hp] at hq; cases hq)
  | some q0 =>
    decidable_of_iff (0 ≤ q0) (by
      constructor
      · intro h q hq
        rw [hp] at hq
        obtain rfl := Option.some.inj hq
        exact h
      · intro h
        exact h q0 hp)

/-- Every qty string of a level list that parses is non-negative. -/
def qtysNonneg (l : List (String × String)) : Prop :=
  ∀ e ∈ l, qtyOk e

instance (l : List (String × String)) : Decidable (qtysNonneg l) :=
  inferInstanceAs (Decidable (∀ e ∈ l, qtyOk e))

/-! Concrete records used to instantiate the theorems below. -/

/-- C1 witness input: an update straddling the cursor of a fresh book. -/
def uC1 : OrderBookUpdate := ⟨1, 2, [("100", "1")], [("101", "0")]⟩

/-- Book produced by applying `uC1` to a fresh book. -/
def bookC1 : OrderBook := ⟨[(100, 1)], [], 2⟩

/-- C2 witness input: a gapped update on a fresh book. -/
def uC2 : OrderBookUpdate := ⟨5, 5, [], []⟩

/-- C3 witness book with cursor 5. -/
def bookC3 : OrderBook := ⟨[(100, 2)], [], 5⟩

/-- C3 witness input: a stale update (`last_trade_id = 3 ≤ 5`). -/
def uC3 : OrderBookUpdate := ⟨1, 3, [("100", "9")], []⟩

/-- C4 input: a consecutive update sitting in the buffer while the
instrument is `Recovering`. -/
def uC4 : OrderBookUpdate := ⟨1, 2, [("3", "4")], []⟩

/-- Book produced by the drain applying `uC4` to a fresh book. -/
def bookC4 : OrderBook := ⟨[(3, 4)], [], 2⟩

/-- C5 input: an update moving the cursor of a fresh book to 5. -/
def uC5 : OrderBookUpdate := ⟨1, 5, [], []⟩

/-- Book with cursor 5 produced by `uC5`. -/
def bookC5 : OrderBook := ⟨[], [], 5⟩

/-- C5 input: a snapshot whose `last_update_id` 3 is below cursor 5. -/
def snapC5 : Snapshot := ⟨3, [], []⟩

/-- C6 input: a snapshot carrying a zero-qty bid line. -/
def snapC6 : Snapshot := ⟨1, [("100", "0")], []⟩

/-- Book produced by `snapC6`: the zero qty is stored. -/
def bookC6 : OrderBook := ⟨[(100, 0)], [], 1⟩

/-- C6 witness input: an update inserting a positive-qty level. -/
def uC6 : OrderBookUpdate := ⟨1, 1, [("1", "2")], []⟩

/-- Book produced by applying `uC6` to a fresh book. -/
def bookC6w : OrderBook := ⟨[(1, 2)], [], 1⟩

/-- C7 input: the snapshot fetched during recovery (cursor 10). -/
def snapC7 : Snapshot := ⟨10, [], []⟩

/-- C7 input: an eligible buffered update (`first = cursor + 1 = 11`). -/
def uC7 : OrderBookUpdate := ⟨11, 11, [("1", "2")], []⟩

/-- Book left after recovery applied `snapC7` and then `uC7`. -/
def bookC7 : OrderBook := ⟨[(1, 2)], [], 11⟩

/-- C8 witness inputs: two consecutive updates with no level lines. -/
def uC8a : OrderBookUpdate := ⟨1, 1, [], []⟩

/-- Second C8 witness update. -/
def uC8b : OrderBookUpdate := ⟨2, 2, [], []⟩

/-- C10 input: an update whose bid price string does not parse. -/
def uC10 : OrderBookUpdate := ⟨1, 1, [("abc", "1")], []⟩

/-- C10 input: a snapshot whose bid qty string does not parse. -/
def snapC10 : Snapshot := ⟨7, [("1", "xyz")], []⟩

/-- C10 witness input: a fully parseable update. -/
def uC10w : OrderBookUpdate := ⟨1, 1, [("1", "2")], []⟩

/-- C10 witness input: a fully parseable snapshot. -/
def snapC10w : Snapshot := ⟨7, [("1", "2")], [("3", "4")]⟩

/-! Theorems. -/

/-- C1: for every update whose price/qty strings parse, if
`first_trade_id ≤ last_applied_id + 1 ≤ last_trade_id` then `apply_update`
returns `Ok`, replaces each side by the result of walking its (price, qty)
pairs in order — removing the level on qty 0, upserting it otherwise — and
sets `last_applied_id := last_trade_id`; an update straddling the snapshot
sequence is applied verbatim. -/
theorem C1_straddle_update_applied (b : OrderBook) (u : OrderBookUpdate)
    (nb na : PriceMap)
    (hb : applySide b.bids u.bids = some nb)
    (ha : applySide b.asks u.asks = some na)
    (h1 : u.first_trade_id ≤ b.last_applied_id + 1)
    (h2 : b.last_applied_id + 1 ≤ u.last_trade_id) :
    b.apply_update u =
      some (Except.ok (), { bids := nb, asks := na, last_applied_id := u.last_trade_id }) := by
  have hx : ¬ u.last_trade_id ≤ b.last_applied_id := by omega
  have hy : ¬ b.last_applied_id + 1 < u.first_trade_id := by omega
  simp only [OrderBook.apply_update, if_neg hx, if_neg hy, hb, ha]

/-- C1 witness: `uC1` (first 1 ≤ cursor+1 = 1 ≤ last 2) applied to a fresh
book upserts the bid at 100 and removes the absent ask at 101. -/
theorem C1_witness :
    OrderBook.new.apply_update uC1 = some (Except.ok (), bookC1) :=
  C1_straddle_update_applied OrderBook.new uC1 [(100, 1)] []
    (by decide) (by decide) (by decide) (by decide)

/-- C2: an update with `last_trade_id > last_applied_id` and
`first_trade_id > last_applied_id + 1` makes `apply_update` return the gap
error carrying `first_trade_id - last_applied_id`, and the book — both
price maps and the cursor — is returned unchanged. -/
theorem C2_gap_error (b : OrderBook) (u : OrderBookUpdate)
    (h1 : b.last_applied_id < u.last_trade_id)
    (h2 : b.last_applied_id + 1 < u.first_trade_id) :
    b.apply_update u = some (Except.error (u.first_trade_id - b.last_applied_id), b) := by
  have hx : ¬ u.last_trade_id ≤ b.last_applied_id := by omega
  simp only [OrderBook.apply_update, if_neg hx, if_pos h2]

/-- C2 witness: the gapped update `uC2` on a fresh book yields the gap
error `5 - 0 = 5` and an unchanged book. -/
theorem C2_witness :
    OrderBook.new.apply_update uC2 = some (Except.error 5, OrderBook.new) :=
  C2_gap_error OrderBook.new uC2 (by decide) (by decide)

/-- C3: an update with `last_trade_id ≤ last_applied_id` is a no-op: `Ok`
is returned and the book is unchanged; consequently once `apply_update`
returned `Ok`, re-applying the same update is a no-op (hence any number of
re-applications changes nothing). -/
theorem C3_stale_update_noop (b : OrderBook) (u : OrderBookUpdate) :
    (u.last_trade_id ≤ b.last_applied_id → b.apply_update u = some (Except.ok (), b)) ∧
    (∀ b' : OrderBook, b.apply_update u = some (Except.ok (), b') →
      b'.apply_update u = some (Except.ok (), b')) := by
  constructor
  · intro h
    simp only [OrderBook.apply_update, if_pos h]
  · intro b' h
    have hle : u.last_trade_id ≤ b'.last_applied_id := by
      unfold OrderBook.apply_update at h
      split at h
      · next hst =>
          simp only [Option.some.injEq, Prod.mk.injEq] at h
          obtain ⟨-, rfl⟩ := h
          exact hst
      · split at h
        · simp at h
        · next hst hgap =>
            rcases hbb : applySide b.bids u.bids with _ | nb
            · rw [hbb] at h; simp at h
            · rw [hbb] at h
              rcases haa : applySide b.asks u.asks with _ | na
              · rw [haa] at h; simp at h
              · rw [haa] at h
                simp only [Option.some.injEq, Prod.mk.injEq] at h
                obtain ⟨-, rfl⟩ := h
                exact le_rfl
    simp only [OrderBook.apply_update, if_pos hle]

/-- C3 witness: the stale `uC3` (last 3 ≤ cursor 5) leaves `bookC3`
unchanged and returns `Ok`. -/
theorem C3_witness :
    bookC3.apply_update uC3 = some (Except.ok (), bookC3) :=
  (C3_stale_update_noop bookC3 uC3).1 (by decide)

/-- C9: when the snapshot fetch (or its parse) fails, the recovery
controller sets the instrument state to `Normal` and returns with the book
and the event buffer untouched (and no update applied), so the watchdog
can re-fire and retry. -/
theorem C9_fetch_failure_resets_state (msg : String) (s0 : InstrumentState)
    (bk : OrderBook) (buf : List OrderBookUpdate) :
    recover_order_book (Except.error msg) s0 bk buf =
      some (InstrumentState.Normal, bk, buf, []) := rfl

/-- Helper: one `apply_update` call never lowers the cursor, whatever the
result value is. -/
theorem apply_update_cursor_mono (b : OrderBook) (u : OrderBookUpdate)
    (r : Except ℕ Unit) (b₁ : OrderBook)
    (h : b.apply_update u = some (r, b₁)) :
    b.last_applied_id ≤ b₁.last_applied_id := by
  unfold OrderBook.apply_update at h
  split at h
  · simp only [Option.some.injEq, Prod.mk.injEq] at h
    obtain ⟨-, rfl⟩ := h
    exact le_rfl
  · split at h
    · simp only [Option.some.injEq, Prod.mk.injEq] at h
      obtain ⟨-, rfl⟩ := h
      exact le_rfl
    · next hst hgap =>
        rcases hbb : applySide b.bids u.bids with _ | nb
        · rw [hbb] at h; simp at h
        · rw [hbb] at h
          rcases haa : applySide b.asks u.asks with _ | na
          · rw [haa] at h; simp at h
          · rw [haa] at h
            simp only [Option.some.injEq, Prod.mk.injEq] at h
            obtain ⟨-, rfl⟩ := h
            show b.last_applied_id ≤ u.last_trade_id
            omega

/-- C5 counterexample: starting from a fresh book, applying `uC5` (cursor
becomes 5) and then the snapshot `snapC5` (cursor set to its
`last_update_id` 3) lowers `last_applied_id` from 5 to 3 — the
non-decreasing claim fails for sequences containing `apply_snapshot`. -/
theorem C5_counterexample :
    OrderBook.new.apply_update uC5 = some (Except.ok (), bookC5) ∧
    bookC5.apply_snapshot snapC5 = some ⟨[], [], 3⟩ ∧
    (⟨[], [], 3⟩ : OrderBook).last_applied_id < bookC5.last_applied_id := by
  decide

/-- C5 amended: after any finite sequence of `apply_update` calls the
cursor is non-decreasing (no call lowers it); `apply_snapshot`, by
contrast, sets `last_applied_id := snapshot.last_update_id`
unconditionally, which may lower it. -/
theorem C5_apply_update_monotone (b : OrderBook) (us : List OrderBookUpdate)
    (b' : OrderBook) (h : runUpdates b us = some b') :
    b.last_applied_id ≤ b'.last_applied_id := by
  induction us generalizing b with
  | nil =>
    unfold runUpdates at h
    obtain rfl := Option.some.inj h
    exact le_rfl
  | cons u rest ih =>
    unfold runUpdates at h
    rcases hr : b.apply_update u with _ | ⟨r, b₁⟩
    · rw [hr] at h; simp at h
    · rw [hr] at h
      exact le_trans (apply_update_cursor_mono b u r b₁ hr) (ih b₁ h)

/-- C5 amended witness: the two-update run `[uC2, uC5]` (a gap error then
an applied update) ends at cursor 5 ≥ 0. -/
theorem C5_witness :
    runUpdates OrderBook.new [uC2, uC5] = some bookC5 ∧
    OrderBook.new.last_applied_id ≤ bookC5.last_applied_id :=
  ⟨by decide, C5_apply_update_monotone OrderBook.new [uC2, uC5] bookC5 (by decide)⟩

/-- Helper: membership after a `PriceMap.insert` comes from the new
binding or from the old map. -/
theorem PriceMap.mem_insert (m : PriceMap) (p q : ℚ) (e : ℚ × ℚ)
    (h : e ∈ PriceMap.insert m p q) : e = (p, q) ∨ e ∈ m := by
  induction m with
  | nil =>
    simp only [PriceMap.insert, List.mem_singleton] at h
    exact Or.inl h
  | cons f rest ih =>
    simp only [PriceMap.insert] at h
    by_cases hf : f.1 = p
    · rw [if_pos hf] at h
      rcases List.mem_cons.mp h with h1 | h2
      · exact Or.inl h1
      · exact Or.inr (List.mem_cons_of_mem f h2)
    · rw [if_neg hf] at h
      rcases List.mem_cons.mp h with h1 | h2
      · exact Or.inr (h1 ▸ List.mem_cons_self f rest)
      · rcases ih h2 with h3 | h4
        · exact Or.inl h3
        · exact Or.inr (List.mem_cons_of_mem f h4)

/-- Helper: membership survives `PriceMap.erase` backwards. -/
theorem PriceMap.mem_erase (m : PriceMap) (p : ℚ) (e : ℚ × ℚ)
    (h : e ∈ m.erase p) : e ∈ m :=
  (List.mem_filter.mp h).1

/-- Helper: the update-side walk keeps every stored qty strictly positive,
provided it starts from a positive side and every parsed qty of the list
is non-negative (a qty of exactly 0 removes its level instead of being
inserted). -/
theorem applySide_preserves_pos (l : List (String × String)) :
    ∀ side side' : PriceMap, (∀ e ∈ side, 0 < e.2) → qtysNonneg l →
      applySide side l = some side' → ∀ e ∈ side', 0 < e.2 := by
  induction l with
  | nil =>
    intro side side' hpos _ h
    unfold applySide at h
    obtain rfl := Option.some.inj h
    exact hpos
  | cons x rest ih =>
    intro side side' hpos hnn h
    unfold applySide at h
    rcases hp : parseDecimal x.1 with _ | p
    · rw [hp] at h; simp at h
    · rcases hq : parseDecimal x.2 with _ | q
      · rw [hp, hq] at h; simp at h
      · simp only [hp, hq] at h
        have hnn' : qtysNonneg rest := fun e he => hnn e (List.mem_cons_of_mem x he)
        by_cases h0 : q = 0
        · rw [if_pos h0] at h
          exact ih (side.erase p) side'
            (fun e he => hpos e (PriceMap.mem_erase side p e he)) hnn' h
        · rw [if_neg h0] at h
          have hq_pos : 0 < q := by
            have := hnn x (List.mem_cons_self x rest) q hq
            rcases lt_or_eq_of_le this with h1 | h1
            · exact h1
            · exact absurd h1.symm h0
          refine ih (PriceMap.insert side p q) side' ?_ hnn' h
          intro e he
          rcases PriceMap.mem_insert side p q e he with h1 | h2
          · rw [h1]; exact hq_pos
          · exact hpos e h2

/-- C6 counterexample: `apply_snapshot` does not drop zero-qty lines — the
snapshot `snapC6` with bid line ("100","0") stores qty 0, so not every
stored quantity is strictly positive after an `apply_snapshot`. -/
theorem C6_counterexample :
    OrderBook.new.apply_snapshot snapC6 = some bookC6 ∧ ¬ bookC6.qtysPositive := by
  decide

/-- C6 amended: `apply_update` preserves strict positivity of every stored
quantity provided every parsed qty of the update is non-negative (qty 0
removes the level, any other qty is upserted); `apply_snapshot`, however,
inserts snapshot lines verbatim, so a zero-qty line sent by the exchange
is stored rather than dropped. -/
theorem C6_apply_update_preserves_pos (b b' : OrderBook) (u : OrderBookUpdate)
    (hpos : b.qtysPositive) (hb : qtysNonneg u.bids) (ha : qtysNonneg u.asks)
    (h : b.apply_update u = some (Except.ok (), b')) :
    b'.qtysPositive := by
  unfold OrderBook.apply_update at h
  split at h
  · simp only [Option.some.injEq, Prod.mk.injEq] at h
    obtain ⟨-, rfl⟩ := h
    exact hpos
  · split at h
    · simp at h
    · rcases hbb : applySide b.bids u.bids with _ | nb
      · rw [hbb] at h; simp at h
      · rw [hbb] at h
        rcases haa : applySide b.asks u.asks with _ | na
        · rw [haa] at h; simp at h
        · rw [haa] at h
          simp only [Option.some.injEq, Prod.mk.injEq] at h
          obtain ⟨-, rfl⟩ := h
          exact ⟨applySide_preserves_pos u.bids b.bids nb hpos.1 hb hbb,
                 applySide_preserves_pos u.asks b.asks na hpos.2 ha haa⟩

/-- C6 amended witness: applying `uC6` (positive qty 2 at price 1) to a
fresh book leaves every stored quantity strictly positive. -/
theorem C6_witness :
    OrderBook.new.apply_update uC6 = some (Except.ok (), bookC6w) ∧ bookC6w.qtysPositive :=
  ⟨by decide,
   C6_apply_update_preserves_pos OrderBook.new bookC6w uC6
     (by decide) (by decide) (by decide) (by decide)⟩

/-- Helper: the update-side walk succeeds whenever every price/qty string
of the list parses. -/
theorem applySide_isSome (l : List (String × String)) :
    ∀ side : PriceMap, parsesAll l → (applySide side l).isSome := by
  induction l with
  | nil =>
    intro side _
    simp [applySide]
  | cons x rest ih =>
    intro side hall
    have hx := hall x (List.mem_cons_self x rest)
    rcases hp : parseDecimal x.1 with _ | p
    · rw [hp] at hx; simp at hx
    · rcases hq : parseDecimal x.2 with _ | q
      · rw [hq] at hx; simp at hx
      · have hrest : parsesAll rest := fun e he => hall e (List.mem_cons_of_mem x he)
        unfold applySide
        simp only [hp, hq]
        exact ih _ hrest

/-- Helper: the snapshot-side walk succeeds whenever every price/qty
string of the list parses. -/
theorem snapshotSide_isSome (l : List (String × String)) :
    ∀ side : PriceMap, parsesAll l → (snapshotSide side l).isSome := by
  induction l with
  | nil =>
    intro side _
    simp [snapshotSide]
  | cons x rest ih =>
    intro side hall
    have hx := hall x (List.mem_cons_self x rest)
    rcases hp : parseDecimal x.1 with _ | p
    · rw [hp] at hx; simp at hx
    · rcases hq : parseDecimal x.2 with _ | q
      · rw [hq] at hx; simp at hx
      · have hrest : parsesAll rest := fun e he => hall e (List.mem_cons_of_mem x he)
        unfold snapshotSide
        simp only [hp, hq]
        exact ih _ hrest

/-- C10 counterexample: `apply_update` and `apply_snapshot` are not total
on wire records with unparseable decimal strings — `uC10` (bid price
"abc") and `snapC10` (bid qty "xyz") both hit the `unwrap` panic,
modelled as `none`, instead of recovering with a diagnostic. -/
theorem C10_counterexample :
    OrderBook.new.apply_update uC10 = none ∧
    OrderBook.new.apply_snapshot snapC10 = none := by
  decide

/-- C10 amended: `apply_update` and `apply_snapshot` are total (no panic)
on every record whose price and qty strings all parse — sequence-gap
conditions are reported as `Err` values, not failures; but a record with
an unparseable price or qty string panics via `unwrap`, which is fatal to
the applying task. -/
theorem C10_total_on_parseable :
    (∀ (b : OrderBook) (u : OrderBookUpdate), parsesAll u.bids → parsesAll u.asks →
      (b.apply_update u).isSome) ∧
    (∀ (b : OrderBook) (s : Snapshot), parsesAll s.bids → parsesAll s.asks →
      (b.apply_snapshot s).isSome) := by
  constructor
  · intro b u hb ha
    unfold OrderBook.apply_update
    split
    · simp
    · split
      · simp
      · rcases hbb : applySide b.bids u.bids with _ | nb
        · have := applySide_isSome u.bids b.bids hb
          rw [hbb] at this; simp at this
        · rcases haa : applySide b.asks u.asks with _ | na
          · have := applySide_isSome u.asks b.asks ha
            rw [haa] at this; simp at this
          · simp [hbb, haa]
  · intro b s hb ha
    unfold OrderBook.apply_snapshot
    rcases hbb : snapshotSide [] s.bids with _ | nb
    · have := snapshotSide_isSome s.bids [] hb
      rw [hbb] at this; simp at this
    · rcases haa : snapshotSide [] s.asks with _ | na
      · have := snapshotSide_isSome s.asks [] ha
        rw [haa] at this; simp at this
      · simp [hbb, haa]

/-- C10 amended witness: on the fully parseable `uC10w` and `snapC10w`
both operations return a value (no panic). -/
theorem C10_witness :
    (OrderBook.new.apply_update uC10w).isSome ∧
    (OrderBook.new.apply_snapshot snapC10w).isSome :=
  ⟨C10_total_on_parseable.1 OrderBook.new uC10w (by decide) (by decide),
   C10_total_on_parseable.2 OrderBook.new snapC10w (by decide) (by decide)⟩

/-- C4 counterexample: with the instrument `Recovering`, a drain over the
buffered consecutive update `uC4` pops it and applies it to the book (the
buffer empties, the book gains the level and cursor 2, and the applied
list is `[uC4]`) — the drain is not blocked in `Recovering`, contradicting
the never-apply-while-recovering claim. -/
theorem C4_counterexample :
    drainGo InstrumentState.Recovering OrderBook.new [uC4] [] =
      some (InstrumentState.Recovering, bookC4, [], [uC4]) ∧
    bookC4 ≠ OrderBook.new := by
  decide

/-- C4 amended: in any state other than `JustRecovered` — including
`Recovering` and `JustStarted` — the drain behaves exactly as in `Normal`
(pop and apply an update with `first_trade_id = cursor + 1`, stop on a
future update, pop and discard a stale one); only the final state label
differs, staying whatever it was. -/
theorem C4_drain_not_blocked (st : InstrumentState)
    (h : st ≠ InstrumentState.JustRecovered) (bk : OrderBook)
    (buf acc : List OrderBookUpdate) :
    drainGo st bk buf acc =
      (drainGo InstrumentState.Normal bk buf acc).map
        (fun r => (st, r.2.1, r.2.2.1, r.2.2.2)) := by
  induction buf generalizing bk acc with
  | nil => simp [drainGo]
  | cons u rest ih =>
    have hN : InstrumentState.Normal ≠ InstrumentState.JustRecovered := by decide
    unfold drainGo
    rw [if_neg h, if_neg hN]
    by_cases hc : u.first_trade_id = bk.last_applied_id + 1
    · rw [if_pos hc, if_pos hc]
      rcases hr : bk.apply_update u with _ | ⟨r, bk'⟩
      · simp
      · rcases r with _ | _
        · simp only []
          exact ih bk' acc
        · simp only []
          exact ih bk' (acc ++ [u])
    · rw [if_neg hc, if_neg hc]
      by_cases hf : bk.last_applied_id + 1 < u.first_trade_id
      · rw [if_pos hf, if_pos hf]
        simp
      · rw [if_neg hf, if_neg hf]
        exact ih bk acc

/-- C4 amended witness: the `Recovering` drain over `[uC4]` equals the
`Normal` drain with the state label put back to `Recovering`. -/
theorem C4_witness :
    drainGo InstrumentState.Recovering OrderBook.new [uC4] [] =
      (drainGo InstrumentState.Normal OrderBook.new [uC4] []).map
        (fun r => (InstrumentState.Recovering, r.2.1, r.2.2.1, r.2.2.2)) :=
  C4_drain_not_blocked InstrumentState.Recovering (by decide) OrderBook.new [uC4] []

/-- C7: evaluation of the recovery controller at a failing input.  After
fetching `snapC7` the post-snapshot drain pops and applies the eligible
`uC7` and moves the state to `Normal` (first conjunct), yet the controller
(recovery.rs:115-119) then unconditionally sets the state back to
`JustRecovered`, so the run ends in `JustRecovered`, not `Normal`
(second conjunct). -/
theorem C7_run_ends_just_recovered :
    drainGo InstrumentState.JustRecovered ⟨[], [], 10⟩ [uC7] [] =
      some (InstrumentState.Normal, bookC7, [], [uC7]) ∧
    recover_order_book (Except.ok snapC7) InstrumentState.Normal OrderBook.new [uC7] =
      some (InstrumentState.JustRecovered, bookC7, [], [uC7]) := by
  decide

/-- Helper: membership in a `bufferPush` result. -/
theorem mem_bufferPush (u w : OrderBookUpdate) (l : List OrderBookUpdate)
    (h : w ∈ bufferPush u l) : w = u ∨ w ∈ l := by
  induction l with
  | nil =>
    simp only [bufferPush, List.mem_singleton] at h
    exact Or.inl h
  | cons v rest ih =>
    simp only [bufferPush] at h
    by_cases hc : u.first_trade_id ≤ v.first_trade_id
    · rw [if_pos hc] at h
      rcases List.mem_cons.mp h with h1 | h2
      · exact Or.inl h1
      · exact Or.inr h2
    · rw [if_neg hc] at h
      rcases List.mem_cons.mp h with h1 | h2
      · exact Or.inr (h1 ▸ List.mem_cons_self v rest)
      · rcases ih h2 with h3 | h4
        · exact Or.inl h3
        · exact Or.inr (List.mem_cons_of_mem v h4)

/-- Helper: ordered insertion keeps the buffer sorted by
`first_trade_id`. -/
theorem bufferPush_sorted (u : OrderBookUpdate) (l : List OrderBookUpdate)
    (h : List.Sorted byFirst l) : List.Sorted byFirst (bufferPush u l) := by
  induction l with
  | nil => simp [bufferPush]
  | cons v rest ih =>
    obtain ⟨hv, hrest⟩ := List.sorted_cons.mp h
    by_cases hc : u.first_trade_id ≤ v.first_trade_id
    · simp only [bufferPush, if_pos hc]
      refine List.sorted_cons.mpr ⟨?_, h⟩
      intro w hw
      rcases List.mem_cons.mp hw with h1 | h2
      · exact h1 ▸ hc
      · exact le_trans hc (hv w h2)
    · simp only [bufferPush, if_neg hc]
      refine List.sorted_cons.mpr ⟨?_, ih hrest⟩
      intro w hw
      rcases mem_bufferPush u w rest hw with h1 | h2
      · rw [h1]
        exact Nat.le_of_not_le hc
      · exact hv w h2

/-- Helper: the drain pops only at the head, so under a sorted buffer, and
an accumulator that is sorted and dominated by the buffer, the applied
list it returns is sorted by `first_trade_id`. -/
theorem drainGo_applied_sorted (buf : List OrderBookUpdate) :
    ∀ (st st' : InstrumentState) (bk bk' : OrderBook)
      (acc buf' applied : List OrderBookUpdate),
      List.Sorted byFirst buf → List.Sorted byFirst acc →
      (∀ a ∈ acc, ∀ v ∈ buf, byFirst a v) →
      drainGo st bk buf acc = some (st', bk', buf', applied) →
      List.Sorted byFirst applied := by
  induction buf with
  | nil =>
    intro st st' bk bk' acc buf' applied _ hacc _ h
    unfold drainGo at h
    simp only [Option.some.injEq, Prod.mk.injEq] at h
    obtain ⟨-, -, -, rfl⟩ := h
    exact hacc
  | cons u rest ih =>
    intro st st' bk bk' acc buf' applied hbuf hacc hrel h
    obtain ⟨hu_rest, hrest⟩ := List.sorted_cons.mp hbuf
    have hrel' : ∀ a ∈ acc, ∀ v ∈ rest, byFirst a v :=
      fun a ha v hv => hrel a ha v (List.mem_cons_of_mem u hv)
    have haccu : List.Sorted byFirst (acc ++ [u]) := by
      rw [List.Sorted, List.pairwise_append]
      refine ⟨hacc, List.pairwise_singleton byFirst u, ?_⟩
      intro a ha w hw
      rcases List.mem_singleton.mp hw with rfl
      exact hrel a ha w (List.mem_cons_self w rest)
    have hrelu : ∀ a ∈ acc ++ [u], ∀ v ∈ rest, byFirst a v := by
      intro a ha v hv
      rcases List.mem_append.mp ha with h1 | h2
      · exact hrel' a h1 v hv
      · rcases List.mem_singleton.mp h2 with rfl
        exact hu_rest v hv
    unfold drainGo at h
    split at h
    · split at h
      · rcases hr : bk.apply_update u with _ | ⟨r, bk1⟩
        · rw [hr] at h; simp at h
        · rw [hr] at h
          rcases r with _ | _
          · exact ih _ _ _ _ _ _ _ hrest hacc hrel' h
          · exact ih _ _ _ _ _ _ _ hrest haccu hrelu h
      · split at h
        · simp only [Option.some.injEq, Prod.mk.injEq] at h
          obtain ⟨-, -, -, rfl⟩ := h
          exact hacc
        · exact ih _ _ _ _ _ _ _ hrest hacc hrel' h
    · split at h
      · rcases hr : bk.apply_update u with _ | ⟨r, bk1⟩
        · rw [hr] at h; simp at h
        · rw [hr] at h
          rcases r with _ | _
          · exact ih _ _ _ _ _ _ _ hrest hacc hrel' h
          · exact ih _ _ _ _ _ _ _ hrest haccu hrelu h
      · split at h
        · simp only [Option.some.injEq, Prod.mk.injEq] at h
          obtain ⟨-, -, -, rfl⟩ := h
          exact hacc
        · exact ih _ _ _ _ _ _ _ hrest hacc hrel' h

/-- C8: the buffer is a min-heap keyed on `first_trade_id`: pushing keeps
it sorted ascending by `first_trade_id`, the minimum sits at peek (the
head is `≤` every buffered update), and any drain over a sorted buffer
applies its updates in ascending `first_trade_id` order. -/
theorem C8_heap_order :
    (∀ (u : OrderBookUpdate) (buf : List OrderBookUpdate),
      List.Sorted byFirst buf → List.Sorted byFirst (bufferPush u buf)) ∧
    (∀ (v : OrderBookUpdate) (t : List OrderBookUpdate),
      List.Sorted byFirst (v :: t) →
      ∀ w ∈ v :: t, v.first_trade_id ≤ w.first_trade_id) ∧
    (∀ (st st' : InstrumentState) (bk bk' : OrderBook)
      (buf buf' applied : List OrderBookUpdate),
      List.Sorted byFirst buf →
      drainGo st bk buf [] = some (st', bk', buf', applied) →
      List.Sorted byFirst applied) := by
  refine ⟨bufferPush_sorted, ?_, ?_⟩
  · intro v t hsort w hw
    rcases List.mem_cons.mp hw with h1 | h2
    · exact h1 ▸ le_rfl
    · exact (List.sorted_cons.mp hsort).1 w h2
  · intro st st' bk bk' buf buf' applied hsort h
    exact drainGo_applied_sorted buf st st' bk bk' [] buf' applied hsort
      List.sorted_nil (by simp) h

/-- C8 witness: pushing `uC8b` onto `[uC8a]` keeps the buffer sorted, the
head of `[uC8a, uC8b]` is minimal, and the `Normal` drain over it applies
`[uC8a, uC8b]` — sorted ascending by `first_trade_id`. -/
theorem C8_witness :
    List.Sorted byFirst (bufferPush uC8b [uC8a]) ∧
    (∀ w ∈ [uC8a, uC8b], uC8a.first_trade_id ≤ w.first_trade_id) ∧
    List.Sorted byFirst [uC8a, uC8b] :=
  ⟨C8_heap_order.1 uC8b [uC8a] (by decide),
   C8_heap_order.2.1 uC8a [uC8b] (by decide),
   C8_heap_order.2.2 InstrumentState.Normal InstrumentState.Normal
     OrderBook.new ⟨[], [], 2⟩ [uC8a, uC8b] [] [uC8a, uC8b] (by decide) (by decide)⟩

end BinanceMd
